import Mathlib

/-
Verification of the terrain core of the eurydice repository
(src/terrain/generation.rs, src/terrain/chunk.rs, src/terrain/objects.rs,
src/terrain/mod.rs), shallowly embedded over exact rational arithmetic.
f32 values are modelled as ℚ (the properties below are stated for exact
real arithmetic); bevy Vec2/Vec3/Dir3 are modelled as rational vectors.
-/

/-- Two-dimensional rational vector, modelling bevy `Vec2` (world XZ plane). -/
@[ext]
structure V2 where
  x : ℚ
  y : ℚ
deriving DecidableEq

instance : Add V2 := ⟨fun a b => ⟨a.x + b.x, a.y + b.y⟩⟩

instance : Sub V2 := ⟨fun a b => ⟨a.x - b.x, a.y - b.y⟩⟩

instance : HMul ℚ V2 V2 := ⟨fun q v => ⟨q * v.x, q * v.y⟩⟩

/-- Dot product of two `V2`, modelling `Vec2::dot`. -/
def V2.dot (a b : V2) : ℚ := a.x * b.x + a.y * b.y

/-- Three-dimensional rational vector, modelling bevy `Vec3`/`Dir3`
(noise-space coordinates and axes). -/
@[ext]
structure V3 where
  x : ℚ
  y : ℚ
  z : ℚ
deriving DecidableEq

instance : Add V3 := ⟨fun a b => ⟨a.x + b.x, a.y + b.y, a.z + b.z⟩⟩

instance : Sub V3 := ⟨fun a b => ⟨a.x - b.x, a.y - b.y, a.z - b.z⟩⟩

instance : HMul ℚ V3 V3 := ⟨fun q v => ⟨q * v.x, q * v.y, q * v.z⟩⟩

/-- Dot product of two `V3`, modelling `Vec3::dot`. -/
def V3.dot (a b : V3) : ℚ := a.x * b.x + a.y * b.y + a.z * b.z

/-- World axis visible in the FOV; from `VisibleAxis` in generation.rs. -/
inductive VisibleAxis where
  | North
  | East
  | South
  | West
deriving DecidableEq

/-- The axis 90 degrees to the left; from `VisibleAxis::left`. -/
def VisibleAxis.left : VisibleAxis → VisibleAxis
  | .North => .West
  | .East => .North
  | .South => .East
  | .West => .South

/-- The axis 90 degrees to the right; from `VisibleAxis::right`. -/
def VisibleAxis.right : VisibleAxis → VisibleAxis
  | .North => .East
  | .East => .South
  | .South => .West
  | .West => .North

/-- Unit direction in the XZ plane (x, z); from `VisibleAxis::dir_2d`. -/
def VisibleAxis.dir_2d : VisibleAxis → V2
  | .North => ⟨0, -1⟩
  | .East => ⟨1, 0⟩
  | .South => ⟨0, 1⟩
  | .West => ⟨-1, 0⟩

/-- Named quadrants around the sampler origin; from `Quadrant` in generation.rs. -/
inductive Quadrant where
  | NorthWest
  | NorthEast
  | SouthEast
  | SouthWest
deriving DecidableEq

/-- From `VisibleAxis::left_quadrant`. -/
def VisibleAxis.left_quadrant : VisibleAxis → Quadrant
  | .North => .NorthWest
  | .East => .NorthEast
  | .South => .SouthEast
  | .West => .SouthWest

/-- From `VisibleAxis::right_quadrant`. -/
def VisibleAxis.right_quadrant : VisibleAxis → Quadrant
  | .North => .NorthEast
  | .East => .SouthEast
  | .South => .SouthWest
  | .West => .NorthWest

/-- Quadrant-plane noise sampler; from `NoiseSampler` in generation.rs.
The three noise-space axes are modelled as plain rational vectors
(the source stores unit `Dir3` values). -/
@[ext]
structure NoiseSampler where
  visible_axis : VisibleAxis
  left_axis : V3
  center_axis : V3
  right_axis : V3
  noise_origin : V3
  quadrant_origin : V2
deriving DecidableEq

/-- From `impl Default for NoiseSampler`. -/
def defaultSampler : NoiseSampler where
  visible_axis := .North
  left_axis := ⟨-1, 0, 0⟩
  center_axis := ⟨0, 0, -1⟩
  right_axis := ⟨1, 0, 0⟩
  noise_origin := ⟨0, 0, 0⟩
  quadrant_origin := ⟨0, 0⟩

/-- The along-seam coordinate of a world point relative to the sampler,
`d.dot(visible_2d)` in `NoiseSampler::noise_point`. -/
def alongOf (s : NoiseSampler) (wx wz : ℚ) : ℚ :=
  (V2.mk (wx - s.quadrant_origin.x) (wz - s.quadrant_origin.y)).dot s.visible_axis.dir_2d

/-- The across-seam coordinate of a world point relative to the sampler,
`d.dot(left_2d)` in `NoiseSampler::noise_point`. -/
def lateralOf (s : NoiseSampler) (wx wz : ℚ) : ℚ :=
  (V2.mk (wx - s.quadrant_origin.x) (wz - s.quadrant_origin.y)).dot s.visible_axis.left.dir_2d

/-- Map a world-space (x, z) position to a 3D noise-space coordinate;
from `NoiseSampler::noise_point`. -/
def noise_point (s : NoiseSampler) (wx wz noise_scale : ℚ) : V3 :=
  let along := alongOf s wx wz
  let lateral := lateralOf s wx wz
  let across_component : V3 :=
    if 0 ≤ lateral then (lateral * noise_scale) * s.left_axis
    else ((-lateral) * noise_scale) * s.right_axis
  s.noise_origin + (along * noise_scale) * s.center_axis + across_component

/-- The value computed by the `lateral >= 0.0` arm of the conditional in
`NoiseSampler::noise_point` (the left plane). -/
def left_branch_point (s : NoiseSampler) (wx wz noise_scale : ℚ) : V3 :=
  s.noise_origin + (alongOf s wx wz * noise_scale) * s.center_axis
    + (lateralOf s wx wz * noise_scale) * s.left_axis

/-- The value computed by the `else` arm of the conditional in
`NoiseSampler::noise_point` (the right plane). -/
def right_branch_point (s : NoiseSampler) (wx wz noise_scale : ℚ) : V3 :=
  s.noise_origin + (alongOf s wx wz * noise_scale) * s.center_axis
    + ((-lateralOf s wx wz) * noise_scale) * s.right_axis

/-- Which named quadrant a world point falls in; from `NoiseSampler::quadrant_at`. -/
def quadrant_at (s : NoiseSampler) (wx wz : ℚ) : Quadrant :=
  let north : Bool := decide (wz < s.quadrant_origin.y)
  let east : Bool := decide (s.quadrant_origin.x ≤ wx)
  match north, east with
  | true, false => Quadrant.NorthWest
  | true, true => Quadrant.NorthEast
  | false, true => Quadrant.SouthEast
  | false, false => Quadrant.SouthWest

/-- Snap the origin to the chunk boundary just behind the player along the
visible axis, compensating `noise_origin`; from `NoiseSampler::slide_origin`. -/
def slide_origin (s : NoiseSampler) (player_pos : V2) (chunk_size noise_scale : ℚ) :
    NoiseSampler :=
  let visible_2d := s.visible_axis.dir_2d
  let p_along := player_pos.dot visible_2d
  let snapped := (⌊p_along / chunk_size⌋ : ℚ) * chunk_size
  let old_along := s.quadrant_origin.dot visible_2d
  let d_along := snapped - old_along
  { s with
    noise_origin := s.noise_origin + (d_along * noise_scale) * s.center_axis
    quadrant_origin := s.quadrant_origin + d_along * visible_2d }

/-- Rotate the sampler 90 degrees left; from `NoiseSampler::rotate_left`.
The source computes `new_left` by `random_orthogonal_dir3(self.left_axis)`;
that nondeterministic result is taken here as the parameter `fresh`, and
its contract (a unit vector orthogonal to the argument `self.left_axis`)
is imposed as a hypothesis where a theorem needs it. -/
def rotate_left (s : NoiseSampler) (player_pos : V2) (chunk_size noise_scale : ℚ)
    (fresh : V3) : NoiseSampler :=
  let new_visible := s.visible_axis.left
  let new_visible_2d := new_visible.dir_2d
  let snapped_along := (⌊player_pos.dot new_visible_2d / chunk_size⌋ : ℚ) * chunk_size
  let cross_2d := new_visible.left.dir_2d
  let new_origin := snapped_along * new_visible_2d
    + (s.quadrant_origin.dot cross_2d) * cross_2d
  let new_left := fresh
  let new_center := s.left_axis
  let new_right := s.center_axis
  let d := new_origin - s.quadrant_origin
  let d_along := d.dot new_visible_2d
  let d_across := -(d.dot new_visible.left.dir_2d)
  let new_noise_origin := s.noise_origin + (d_along * noise_scale) * new_center
    + (d_across * noise_scale) * new_right
  { visible_axis := new_visible
    left_axis := new_left
    center_axis := new_center
    right_axis := new_right
    noise_origin := new_noise_origin
    quadrant_origin := new_origin }

/-- Rotate the sampler 90 degrees right; from `NoiseSampler::rotate_right`.
The source computes `new_right` by `random_orthogonal_dir3(self.right_axis)`;
that nondeterministic result is taken here as the parameter `fresh`. -/
def rotate_right (s : NoiseSampler) (player_pos : V2) (chunk_size noise_scale : ℚ)
    (fresh : V3) : NoiseSampler :=
  let new_visible := s.visible_axis.right
  let new_visible_2d := new_visible.dir_2d
  let snapped_along := (⌊player_pos.dot new_visible_2d / chunk_size⌋ : ℚ) * chunk_size
  let cross_2d := new_visible.left.dir_2d
  let new_origin := snapped_along * new_visible_2d
    + (s.quadrant_origin.dot cross_2d) * cross_2d
  let new_left := s.center_axis
  let new_center := s.right_axis
  let new_right := fresh
  let d := new_origin - s.quadrant_origin
  let new_left_2d := new_visible.left.dir_2d
  let d_along := d.dot new_visible_2d
  let d_across := d.dot new_left_2d
  let new_noise_origin := s.noise_origin + (d_across * noise_scale) * new_left
    + (d_along * noise_scale) * new_center
  { visible_axis := new_visible
    left_axis := new_left
    center_axis := new_center
    right_axis := new_right
    noise_origin := new_noise_origin
    quadrant_origin := new_origin }

/-- Actual vertex heights along each edge of a generated chunk mesh; from
`ChunkEdgeHeights` in chunk.rs (four fixed-size `[f32; 5]` arrays). -/
@[ext]
structure ChunkEdgeHeights where
  north : Fin 5 → ℚ
  south : Fin 5 → ℚ
  west : Fin 5 → ℚ
  east : Fin 5 → ℚ
deriving DecidableEq

/-- Bounds-checked read of a 5-element array. Rust indexing panics when the
index is out of bounds; the panic is modelled as `none`. -/
def arrGet (a : Fin 5 → ℚ) (i : ℕ) : Option ℚ :=
  if h : i < 5 then some (a ⟨i, h⟩) else none

/-- Bounds-checked write to a 5-element array. Rust indexing panics when the
index is out of bounds; the panic is modelled as `none`. -/
def arrSet (a : Fin 5 → ℚ) (i : ℕ) (v : ℚ) : Option (Fin 5 → ℚ) :=
  if h : i < 5 then some (Function.update a ⟨i, h⟩ v) else none

/-- A chunk whose mesh was generated with a now-stale sampler; from
`StaleRegion` in generation.rs. -/
structure StaleRegion where
  sampler : NoiseSampler
  grid_pos : ℤ × ℤ
  edge_heights : ChunkEdgeHeights
deriving DecidableEq

/-- Squared Euclidean distance from a world point to the stale chunk's
axis-aligned footprint; the `dx`/`dz`/`dist` computation inside
`blend_factor` in generation.rs before the square root is taken. -/
def footprintDistSq (wx wz : ℚ) (stale : StaleRegion) (chunk_size : ℚ) : ℚ :=
  let min_x := (stale.grid_pos.1 : ℚ) * chunk_size
  let max_x := min_x + chunk_size
  let min_z := (stale.grid_pos.2 : ℚ) * chunk_size
  let max_z := min_z + chunk_size
  let dx := max 0 (max (min_x - wx) (wx - max_x))
  let dz := max 0 (max (min_z - wz) (wz - max_z))
  dx * dx + dz * dz

/-- Cubic smoothstep over ℚ; from `smoothstep` in generation.rs
(`clamp(0,1)` is min-max). -/
def smoothstepQ (edge0 edge1 x : ℚ) : ℚ :=
  let t := min (max ((x - edge0) / (edge1 - edge0)) 0) 1
  t * t * (3 - 2 * t)

/-- `blend_factor` from generation.rs with the `f32::sqrt` call abstracted
as the parameter `sqrtFn` (so the definition stays executable over ℚ);
instantiating `sqrtFn` with the exact square root gives `blend_factor` below. -/
def blendFactorWith (sqrtFn : ℚ → ℚ) (wx wz : ℚ) (stale : StaleRegion)
    (chunk_size : ℚ) : ℚ :=
  smoothstepQ 0 chunk_size (sqrtFn (footprintDistSq wx wz stale chunk_size))

/-- Cubic smoothstep over ℝ; from `smoothstep` in generation.rs, for the
exact-real-arithmetic reading of the blend-factor property. -/
noncomputable def smoothstepR (edge0 edge1 x : ℝ) : ℝ :=
  let t := min (max ((x - edge0) / (edge1 - edge0)) 0) 1
  t * t * (3 - 2 * t)

/-- `blend_factor` from generation.rs over exact real arithmetic: distance
from the point to the stale chunk's axis-aligned footprint (0 inside),
passed through smoothstep over [0, chunk_size]. -/
noncomputable def blend_factor (wx wz : ℚ) (stale : StaleRegion)
    (chunk_size : ℚ) : ℝ :=
  smoothstepR 0 (chunk_size : ℝ)
    (Real.sqrt ((footprintDistSq wx wz stale chunk_size : ℚ) : ℝ))

/-- From `ChunkEdgeHeights::shared_height` in chunk.rs: if vertex (xi, zi) of
the chunk at (chunk_x, chunk_z) shares a boundary with the stale chunk at
(stale_x, stale_z), the stored height. Match arms whose guard fails fall
through to `None` exactly as in the source. -/
def shared_height (e : ChunkEdgeHeights) (chunk_x chunk_z : ℤ) (xi zi : ℕ)
    (stale_x stale_z : ℤ) (res : ℕ) : Option ℚ :=
  let dx := chunk_x - stale_x
  let dz := chunk_z - stale_z
  let last := res - 1
  if dx = 1 ∧ dz = 0 ∧ xi = 0 then arrGet e.east zi
  else if dx = -1 ∧ dz = 0 ∧ xi = last then arrGet e.west zi
  else if dx = 0 ∧ dz = 1 ∧ zi = 0 then arrGet e.south xi
  else if dx = 0 ∧ dz = -1 ∧ zi = last then arrGet e.north xi
  else if dx = 1 ∧ dz = 1 ∧ xi = 0 ∧ zi = 0 then arrGet e.south last
  else if dx = -1 ∧ dz = 1 ∧ xi = last ∧ zi = 0 then arrGet e.south 0
  else if dx = 1 ∧ dz = -1 ∧ xi = 0 ∧ zi = last then arrGet e.north last
  else if dx = -1 ∧ dz = -1 ∧ xi = last ∧ zi = last then arrGet e.north 0
  else none

/-- Sample terrain height at a world position, blending with stale noise if
active; from `terrain_height` in chunk.rs. The noise field
(`noise.0.sample_for::<f32>`) is the abstract parameter `noiseFn`, and the
`f32::sqrt` inside `blend_factor` is the abstract parameter `sqrtFn`. -/
def terrain_height (sqrtFn : ℚ → ℚ) (noiseFn : V3 → ℚ) (wx wz : ℚ)
    (sampler : NoiseSampler) (amplitude noise_scale chunk_size : ℚ)
    (stale : Option StaleRegion) : ℚ :=
  let p := noise_point sampler wx wz noise_scale
  let h := noiseFn p * amplitude
  match stale with
  | some st =>
    let t := blendFactorWith sqrtFn wx wz st chunk_size
    if t < 1 then
      let old_p := noise_point st.sampler wx wz noise_scale
      let old_h := noiseFn old_p * amplitude
      old_h + t * (h - old_h)
    else h
  | none => h

/-- World x coordinate of vertex column xi of a chunk, `origin_x + xi * step`
in `generate_chunk_mesh`. -/
def worldX (chunk_x : ℤ) (size step : ℚ) (xi : ℕ) : ℚ :=
  (chunk_x : ℚ) * size + (xi : ℚ) * step

/-- Height of vertex (xi, zi) of a chunk; the body of the vertex loop of
`generate_chunk_mesh` in chunk.rs: the stale chunk's recorded boundary
height when `shared_height` applies, otherwise `terrain_height`. -/
def vertexHeight (sqrtFn : ℚ → ℚ) (noiseFn : V3 → ℚ) (chunk_x chunk_z : ℤ)
    (size step : ℚ) (res : ℕ) (amplitude noise_scale : ℚ)
    (sampler : NoiseSampler) (stale : Option StaleRegion) (xi zi : ℕ) : ℚ :=
  let wx := worldX chunk_x size step xi
  let wz := worldX chunk_z size step zi
  match stale.bind (fun st =>
      shared_height st.edge_heights chunk_x chunk_z xi zi
        st.grid_pos.1 st.grid_pos.2 res) with
  | some h => h
  | none => terrain_height sqrtFn noiseFn wx wz sampler amplitude noise_scale size stale

/-- Row-major list of the values of a grid function, mirroring the vertex
loops (`for zi in 0..res { for xi in 0..res { ... } }`) that fill
`positions` in `generate_chunk_mesh`. -/
def gridList (H : ℕ → ℕ → ℚ) (res : ℕ) : List ℚ :=
  (List.range res).flatMap (fun zi => (List.range res).map (fun xi => H xi zi))

/-- The row-major list of vertex heights of one generated chunk
(`positions[..][1]` in generation order). -/
def heightsList (sqrtFn : ℚ → ℚ) (noiseFn : V3 → ℚ) (chunk_x chunk_z : ℤ)
    (size step : ℚ) (res : ℕ) (amplitude noise_scale : ℚ)
    (sampler : NoiseSampler) (stale : Option StaleRegion) : List ℚ :=
  gridList (fun xi zi => vertexHeight sqrtFn noiseFn chunk_x chunk_z size step res
    amplitude noise_scale sampler stale xi zi) res

/-- The two edge-extraction loops at the end of `generate_chunk_mesh`:
starting from zero-initialised `[0.0; 5]` arrays, write
`north[xi] := positions[xi]`, `south[xi] := positions[(res-1)*res + xi]`
for `xi in 0..res`, then `west[zi] := positions[zi*res]`,
`east[zi] := positions[zi*res + res-1]` for `zi in 0..res`. Array writes and
list reads are bounds-checked (`none` models the Rust panic). -/
def extractEdges (res : ℕ) (positions : List ℚ) : Option ChunkEdgeHeights := do
  let init : ChunkEdgeHeights :=
    ⟨fun _ => 0, fun _ => 0, fun _ => 0, fun _ => 0⟩
  let e1 ← (List.range res).foldlM (fun (e : ChunkEdgeHeights) (xi : ℕ) => do
    let hn ← positions[xi]?
    let north ← arrSet e.north xi hn
    let hs ← positions[(res - 1) * res + xi]?
    let south ← arrSet e.south xi hs
    pure { e with north := north, south := south }) init
  (List.range res).foldlM (fun (e : ChunkEdgeHeights) (zi : ℕ) => do
    let hw ← positions[zi * res]?
    let west ← arrSet e.west zi hw
    let he ← positions[zi * res + (res - 1)]?
    let east ← arrSet e.east zi he
    pure { e with west := west, east := east }) e1

/-- Division with an explicit failure on a zero divisor. Used to model
`size / (res - 1) as f32` in `generate_chunk_mesh`: when
`chunk_resolution <= 1` the divisor `(res - 1) as f32` is zero (for
`res = 0` the `usize` subtraction itself already underflows, a panic in
debug builds), so the step computation is degenerate; exact arithmetic has
no IEEE infinity, so the degenerate division is modelled as failure. -/
def qdivOpt (a b : ℚ) : Option ℚ :=
  if b = 0 then none else some (a / b)

/-- The height data produced by `generate_chunk_mesh` in chunk.rs: the
row-major vertex heights and the four extracted boundary arrays. `none`
models a run that panics or has a degenerate vertex step. Normals and
triangle indices do not affect heights and are omitted. -/
def generateChunkHeights (sqrtFn : ℚ → ℚ) (noiseFn : V3 → ℚ)
    (chunk_x chunk_z : ℤ) (size : ℚ) (res : ℕ) (amplitude noise_scale : ℚ)
    (sampler : NoiseSampler) (stale : Option StaleRegion) :
    Option (List ℚ × ChunkEdgeHeights) := do
  let step ← qdivOpt size ((res - 1 : ℕ) : ℚ)
  let positions := heightsList sqrtFn noiseFn chunk_x chunk_z size step res
    amplitude noise_scale sampler stale
  let edges ← extractEdges res positions
  pure (positions, edges)

/-- Closed form of the arrays produced by the edge-extraction loops of
`generate_chunk_mesh` for a grid function H: entry i holds the boundary
value when i < res and the initial 0.0 otherwise. -/
def recordedEdges (H : ℕ → ℕ → ℚ) (res : ℕ) : ChunkEdgeHeights where
  north := fun i => if (i : ℕ) < res then H i 0 else 0
  south := fun i => if (i : ℕ) < res then H i (res - 1) else 0
  west := fun i => if (i : ℕ) < res then H 0 i else 0
  east := fun i => if (i : ℕ) < res then H (res - 1) i else 0

/-- Truncation of a rational toward zero, modelling `f32::trunc`
(Lean's `Int` division truncates toward zero). -/
def qtrunc (x : ℚ) : ℤ := x.num / (x.den : ℤ)

/-- Fractional part toward zero, modelling `f32::fract`
(`self - self.trunc()`). -/
def qfract (x : ℚ) : ℚ := x - (qtrunc x : ℚ)

/-- GPU-style scalar hash of a 3D point; from `hash_vec3` in objects.rs:
`p.dot(K).sin().mul_add(43758.545, 0.0).fract().abs()` with
K = (127.1, 311.7, 74.7). The transcendental `f32::sin` is the abstract
parameter `sinFn`. -/
def hash_vec3 (sinFn : ℚ → ℚ) (p : V3) : ℚ :=
  |qfract (sinFn (p.dot ⟨127.1, 311.7, 74.7⟩) * 43758.545)|

/-- Select an index into a list of the given length from a fractional value
in [0, 1); from `pick` in objects.rs (`(frac * len) as usize`, clamped to
the last index). -/
def pick (len : ℕ) (frac : ℚ) : ℕ :=
  min (qtrunc (frac * (len : ℚ))).toNat (len - 1)

/-- Object categories placed by the scatterer, matching the asset groups of
`TerrainObjectAssets` in objects.rs. -/
inductive ObjectCategory where
  | deadTree
  | rock
  | tree
  | groundCover
deriving DecidableEq

/-- Number of loaded tree scenes in `load_terrain_objects`. -/
def TREE_COUNT : ℕ := 10

/-- Number of loaded dead-tree scenes in `load_terrain_objects`. -/
def DEAD_TREE_COUNT : ℕ := 5

/-- Number of loaded rock scenes in `load_terrain_objects`. -/
def ROCK_COUNT : ℕ := 3

/-- Number of loaded ground-cover scenes in `load_terrain_objects`. -/
def GROUND_COVER_COUNT : ℕ := 30

/-- One object placement produced by the scatterer: world position, height,
category and the variant index selected inside the category's list. -/
structure Placement where
  wx : ℚ
  wz : ℚ
  height : ℚ
  category : ObjectCategory
  variant : ℕ
deriving DecidableEq

/-- The body of the per-point loop of `spawn_chunk_objects` in objects.rs:
map the blue-noise point into the chunk footprint, hash its noise-space
coordinate to select a category (or no object), a second offset hash to
select the variant, and `terrain_height` for the placement height. -/
def placeObject (sinFn sqrtFn : ℚ → ℚ) (noiseFn : V3 → ℚ) (chunk_x chunk_z : ℤ)
    (size amplitude noise_scale : ℚ) (sampler : NoiseSampler)
    (stale : Option StaleRegion) (point : ℚ × ℚ) : Option Placement :=
  let origin_x := (chunk_x : ℚ) * size
  let origin_z := (chunk_z : ℚ) * size
  let wx := origin_x + point.1 * size
  let wz := origin_z + point.2 * size
  let p := noise_point sampler wx wz noise_scale
  let t := hash_vec3 sinFn p
  let chosen : Option (ObjectCategory × ℕ) :=
    if 0.998 < t ∧ t < 1 then
      some (.deadTree, pick DEAD_TREE_COUNT (hash_vec3 sinFn (p + ⟨1, 0, 0⟩)))
    else if 0.995 < t then
      some (.rock, pick ROCK_COUNT (hash_vec3 sinFn (p + ⟨0, 1, 0⟩)))
    else if 0.985 < t then
      some (.tree, pick TREE_COUNT (hash_vec3 sinFn (p + ⟨1, 0, 0⟩)))
    else if 0.93 < t then
      some (.groundCover, pick GROUND_COVER_COUNT (hash_vec3 sinFn (p + ⟨0, 0, 1⟩)))
    else none
  chosen.map (fun cv =>
    { wx := wx
      wz := wz
      height := terrain_height sqrtFn noiseFn wx wz sampler amplitude noise_scale
        size stale
      category := cv.1
      variant := cv.2 })

/-- The placements produced by `spawn_chunk_objects` in objects.rs for one
chunk, in blue-noise point order. -/
def spawn_chunk_objects (sinFn sqrtFn : ℚ → ℚ) (noiseFn : V3 → ℚ)
    (chunk_x chunk_z : ℤ) (size amplitude noise_scale : ℚ)
    (sampler : NoiseSampler) (stale : Option StaleRegion)
    (points : List (ℚ × ℚ)) : List Placement :=
  points.filterMap (placeObject sinFn sqrtFn noiseFn chunk_x chunk_z size
    amplitude noise_scale sampler stale)

/-- Max chunks generated per frame; `MAX_SPAWNS_PER_FRAME` in mod.rs. -/
def MAX_SPAWNS_PER_FRAME : ℕ := 64

/-- Per-tick observer input to `manage_chunks`: player XZ position and the
sampler's current visible axis. -/
structure TickInput where
  px : ℚ
  pz : ℚ
  axis : VisibleAxis
deriving DecidableEq

/-- Player grid cell x, `(player_pos.x / chunk_size).floor() as i32`. -/
def playerCellX (chunk_size : ℚ) (t : TickInput) : ℤ := ⌊t.px / chunk_size⌋

/-- Player grid cell z, `(player_pos.z / chunk_size).floor() as i32`. -/
def playerCellZ (chunk_size : ℚ) (t : TickInput) : ℤ := ⌊t.pz / chunk_size⌋

/-- World-space center of a grid cell, `((c + 0.5) * chunk_size)` on both
axes as computed in `manage_chunks`. -/
def cellCenter (chunk_size : ℚ) (c : ℤ × ℤ) : V2 :=
  ⟨((c.1 : ℚ) + 0.5) * chunk_size, ((c.2 : ℚ) + 0.5) * chunk_size⟩

/-- `player_along` in `manage_chunks`: along-axis coordinate of the center
of the player's cell. -/
def playerAlong (chunk_size : ℚ) (t : TickInput) : ℚ :=
  (cellCenter chunk_size (playerCellX chunk_size t, playerCellZ chunk_size t)).dot
    t.axis.dir_2d

/-- Squared grid distance between two cells, `dx*dx + dz*dz` in
`manage_chunks`. -/
def gridDistSq (a b : ℤ × ℤ) : ℤ :=
  (a.1 - b.1) * (a.1 - b.1) + (a.2 - b.2) * (a.2 - b.2)

/-- The despawn test of `manage_chunks`: a chunk is kept unless it is too
far (`dist_sq > (radius+2)^2`) or behind the player along the visible axis. -/
def keepChunk (chunk_size : ℚ) (radius : ℤ) (t : TickInput) (c : ℤ × ℤ) : Bool :=
  let tooFar : Bool :=
    decide ((radius + 2) * (radius + 2)
      < gridDistSq c (playerCellX chunk_size t, playerCellZ chunk_size t))
  let behind : Bool :=
    decide ((cellCenter chunk_size c).dot t.axis.dir_2d < playerAlong chunk_size t)
  !(tooFar || behind)

/-- The despawn loop of `manage_chunks`, acting on the set of spawned grid
cells (`SpawnedChunks` mirrors the live chunk entities). -/
def despawnPhase (chunk_size : ℚ) (radius : ℤ) (t : TickInput)
    (spawned : Finset (ℤ × ℤ)) : Finset (ℤ × ℤ) :=
  spawned.filter (fun c => keepChunk chunk_size radius t c = true)

/-- Integer range `lo..hi` (upper bound excluded) as iterated by the spawn
loops of `manage_chunks`. -/
def intRange (lo hi : ℤ) : List ℤ :=
  (List.range (hi - lo).toNat).map (fun i => lo + (i : ℤ))

/-- The scan order of the spawn loops of `manage_chunks`:
`for cz in (player_cz - radius)..(player_cz + radius)` outer,
`for cx in (player_cx - radius)..(player_cx + radius)` inner. -/
def scanCells (chunk_size : ℚ) (radius : ℤ) (t : TickInput) : List (ℤ × ℤ) :=
  (intRange (playerCellZ chunk_size t - radius) (playerCellZ chunk_size t + radius)).flatMap
    (fun cz =>
      (intRange (playerCellX chunk_size t - radius)
        (playerCellX chunk_size t + radius)).map (fun cx => (cx, cz)))

/-- The spawn loop body of `manage_chunks` over the remaining scan cells:
stop at the per-frame cap (the early `return`), skip already-spawned cells,
cells outside `radius_sq`, and cells behind the player; otherwise insert the
cell and count the spawn. -/
def spawnLoop (chunk_size : ℚ) (radius : ℤ) (t : TickInput) :
    List (ℤ × ℤ) → Finset (ℤ × ℤ) → ℕ → Finset (ℤ × ℤ) × ℕ
  | [], spawned, n => (spawned, n)
  | c :: rest, spawned, n =>
    if MAX_SPAWNS_PER_FRAME ≤ n then (spawned, n)
    else if c ∈ spawned then spawnLoop chunk_size radius t rest spawned n
    else if radius * radius
        < gridDistSq c (playerCellX chunk_size t, playerCellZ chunk_size t) then
      spawnLoop chunk_size radius t rest spawned n
    else if (cellCenter chunk_size c).dot t.axis.dir_2d < playerAlong chunk_size t then
      spawnLoop chunk_size radius t rest spawned n
    else spawnLoop chunk_size radius t rest (insert c spawned) (n + 1)

/-- One run of the `manage_chunks` system in mod.rs: the despawn loop, then
the capped spawn scan. Returns the new spawned set and the number of chunks
generated this frame. -/
def manageChunksTick (chunk_size : ℚ) (radius : ℤ) (t : TickInput)
    (spawned : Finset (ℤ × ℤ)) : Finset (ℤ × ℤ) × ℕ :=
  spawnLoop chunk_size radius t (scanCells chunk_size radius t)
    (despawnPhase chunk_size radius t spawned) 0

/-- Iterated `manage_chunks` ticks over a list of per-tick observer inputs. -/
def runTicks (chunk_size : ℚ) (radius : ℤ) (ticks : List TickInput)
    (spawned : Finset (ℤ × ℤ)) : Finset (ℤ × ℤ) :=
  ticks.foldl (fun s t => (manageChunksTick chunk_size radius t s).1) spawned

/-- The vertex spacing `size / (res - 1) as f32` of `generate_chunk_mesh`. -/
def chunkStep (size : ℚ) (res : ℕ) : ℚ := size / ((res - 1 : ℕ) : ℚ)

@[simp] theorem v2_add_x (a b : V2) : (a + b).x = a.x + b.x := rfl

@[simp] theorem v2_add_y (a b : V2) : (a + b).y = a.y + b.y := rfl

@[simp] theorem v2_sub_x (a b : V2) : (a - b).x = a.x - b.x := rfl

@[simp] theorem v2_sub_y (a b : V2) : (a - b).y = a.y - b.y := rfl

@[simp] theorem v2_smul_x (q : ℚ) (v : V2) : (q * v).x = q * v.x := rfl

@[simp] theorem v2_smul_y (q : ℚ) (v : V2) : (q * v).y = q * v.y := rfl

@[simp] theorem v3_add_x (a b : V3) : (a + b).x = a.x + b.x := rfl

@[simp] theorem v3_add_y (a b : V3) : (a + b).y = a.y + b.y := rfl

@[simp] theorem v3_add_z (a b : V3) : (a + b).z = a.z + b.z := rfl

@[simp] theorem v3_sub_x (a b : V3) : (a - b).x = a.x - b.x := rfl

@[simp] theorem v3_sub_y (a b : V3) : (a - b).y = a.y - b.y := rfl

@[simp] theorem v3_sub_z (a b : V3) : (a - b).z = a.z - b.z := rfl

@[simp] theorem v3_smul_x (q : ℚ) (v : V3) : (q * v).x = q * v.x := rfl

@[simp] theorem v3_smul_y (q : ℚ) (v : V3) : (q * v).y = q * v.y := rfl

@[simp] theorem v3_smul_z (q : ℚ) (v : V3) : (q * v).z = q * v.z := rfl

/-- The conditional in `noise_point` selects between the two branch values. -/
theorem noise_point_branches (s : NoiseSampler) (wx wz ns : ℚ) :
    noise_point s wx wz ns =
      if 0 ≤ lateralOf s wx wz then left_branch_point s wx wz ns
      else right_branch_point s wx wz ns := by
  simp only [noise_point, left_branch_point, right_branch_point]
  split <;> rfl

/-- Sliding the origin does not change the across-seam coordinate of any
world point (the shift is along the visible axis, orthogonal to left_2d). -/
theorem slide_lateral (s : NoiseSampler) (p : V2) (cs ns wx wz : ℚ) :
    lateralOf (slide_origin s p cs ns) wx wz = lateralOf s wx wz := by
  obtain ⟨a, la, ca, ra, no, qo⟩ := s
  cases a <;>
    simp [lateralOf, slide_origin, V2.dot, VisibleAxis.dir_2d, VisibleAxis.left]

/-- The left-plane value is unchanged by `slide_origin`: the noise-origin
shift along `center_axis` exactly compensates the origin motion. -/
theorem slide_left_branch (s : NoiseSampler) (p : V2) (cs ns wx wz : ℚ) :
    left_branch_point (slide_origin s p cs ns) wx wz ns
      = left_branch_point s wx wz ns := by
  obtain ⟨a, la, ca, ra, no, qo⟩ := s
  cases a <;>
    · ext <;>
      simp [left_branch_point, slide_origin, lateralOf, alongOf, V2.dot,
        VisibleAxis.dir_2d, VisibleAxis.left] <;>
      ring

/-- The right-plane value is unchanged by `slide_origin`. -/
theorem slide_right_branch (s : NoiseSampler) (p : V2) (cs ns wx wz : ℚ) :
    right_branch_point (slide_origin s p cs ns) wx wz ns
      = right_branch_point s wx wz ns := by
  obtain ⟨a, la, ca, ra, no, qo⟩ := s
  cases a <;>
    · ext <;>
      simp [right_branch_point, slide_origin, lateralOf, alongOf, V2.dot,
        VisibleAxis.dir_2d, VisibleAxis.left] <;>
      ring

/-- `slide_origin` is invisible in `noise_point`. -/
theorem slide_noise_point (s : NoiseSampler) (p : V2) (cs ns wx wz : ℚ) :
    noise_point (slide_origin s p cs ns) wx wz ns = noise_point s wx wz ns := by
  rw [noise_point_branches, noise_point_branches, slide_lateral]
  split
  · exact slide_left_branch s p cs ns wx wz
  · exact slide_right_branch s p cs ns wx wz

/-- On the seam the two branch values agree. -/
theorem branch_eq_at_zero (s : NoiseSampler) (wx wz ns : ℚ)
    (h : lateralOf s wx wz = 0) :
    left_branch_point s wx wz ns = right_branch_point s wx wz ns := by
  ext <;> simp [left_branch_point, right_branch_point, h]

/-- After `rotate_right`, the new left-plane value at any world point equals
the old right-plane value there: the surviving half-plane keeps its field. -/
theorem rotate_right_left_branch (s : NoiseSampler) (p : V2) (cs ns : ℚ)
    (fresh : V3) (wx wz : ℚ) :
    left_branch_point (rotate_right s p cs ns fresh) wx wz ns
      = right_branch_point s wx wz ns := by
  obtain ⟨a, la, ca, ra, no, qo⟩ := s
  cases a <;>
    · ext <;>
      simp [left_branch_point, right_branch_point, rotate_right, lateralOf,
        alongOf, V2.dot, VisibleAxis.dir_2d, VisibleAxis.left,
        VisibleAxis.right] <;>
      ring

/-- After `rotate_left`, the new right-plane value at any world point equals
the old left-plane value there. -/
theorem rotate_left_right_branch (s : NoiseSampler) (p : V2) (cs ns : ℚ)
    (fresh : V3) (wx wz : ℚ) :
    right_branch_point (rotate_left s p cs ns fresh) wx wz ns
      = left_branch_point s wx wz ns := by
  obtain ⟨a, la, ca, ra, no, qo⟩ := s
  cases a <;>
    · ext <;>
      simp [left_branch_point, right_branch_point, rotate_left, lateralOf,
        alongOf, V2.dot, VisibleAxis.dir_2d, VisibleAxis.left,
        VisibleAxis.right] <;>
      ring

/-- In the quadrant that survives a right rotation (old right half-plane,
not behind the new origin), `noise_point` is preserved exactly. -/
theorem rotate_right_survivor (s : NoiseSampler) (p : V2) (cs ns : ℚ)
    (fresh : V3) (wx wz : ℚ) (h1 : lateralOf s wx wz ≤ 0)
    (h2 : 0 ≤ lateralOf (rotate_right s p cs ns fresh) wx wz) :
    noise_point (rotate_right s p cs ns fresh) wx wz ns
      = noise_point s wx wz ns := by
  rw [noise_point_branches, noise_point_branches, if_pos h2,
    rotate_right_left_branch]
  split
  · next h =>
    rw [← branch_eq_at_zero s wx wz ns (le_antisymm h1 h)]
  · rfl

/-- In the quadrant that survives a left rotation, `noise_point` is
preserved exactly. -/
theorem rotate_left_survivor (s : NoiseSampler) (p : V2) (cs ns : ℚ)
    (fresh : V3) (wx wz : ℚ) (h1 : 0 ≤ lateralOf s wx wz)
    (h2 : lateralOf (rotate_left s p cs ns fresh) wx wz ≤ 0) :
    noise_point (rotate_left s p cs ns fresh) wx wz ns
      = noise_point s wx wz ns := by
  rw [noise_point_branches, noise_point_branches, if_pos h1]
  split
  · next h =>
    rw [branch_eq_at_zero _ wx wz ns (le_antisymm h2 h),
      rotate_left_right_branch]
  · rw [rotate_left_right_branch]

/-- C1 counterexample: the claim's region is too large. The point (1, 1)
lies in the old right half-plane of the default sampler (lateral ≤ 0), the
fresh axis (0,1,0) is a unit vector orthogonal to the axis the source
passes to `random_orthogonal_dir3`, and yet `noise_point` after
`rotate_right` differs from `noise_point` before: the point falls behind
the new origin along the old visible axis, so it is mapped through the
freshly exposed plane, not the surviving one. -/
theorem c1_counterexample :
    lateralOf defaultSampler 1 1 ≤ 0
    ∧ V3.dot ⟨0, 1, 0⟩ defaultSampler.right_axis = 0
    ∧ noise_point (rotate_right defaultSampler ⟨0, 0⟩ 1 1 ⟨0, 1, 0⟩) 1 1 1
        ≠ noise_point defaultSampler 1 1 1 := by
  with_unfolding_all decide

/-- C1 (amended): for every sampler, player position, chunk_size > 0,
noise_scale and fresh axis, and for every world point in the quadrant that
actually survives the rotation — the old right half-plane (lateral ≤ 0)
intersected with the new left half-plane (new lateral ≥ 0) for
`rotate_right`, and symmetrically for `rotate_left` — the noise-space
coordinate `noise_point`, and hence `terrain_height` (no stale region), is
exactly preserved by the rotation. The old half-plane alone does not
suffice (see the counterexample); the intersection is the surviving
quadrant. -/
theorem c1_rotation_continuity (s : NoiseSampler) (p : V2) (cs ns : ℚ)
    (_hcs : 0 < cs) (fresh : V3) (wx wz : ℚ) (sqrtFn : ℚ → ℚ)
    (noiseFn : V3 → ℚ) (amp : ℚ) :
    (lateralOf s wx wz ≤ 0 →
      0 ≤ lateralOf (rotate_right s p cs ns fresh) wx wz →
      noise_point (rotate_right s p cs ns fresh) wx wz ns = noise_point s wx wz ns
      ∧ terrain_height sqrtFn noiseFn wx wz (rotate_right s p cs ns fresh) amp ns cs none
          = terrain_height sqrtFn noiseFn wx wz s amp ns cs none)
    ∧ (0 ≤ lateralOf s wx wz →
      lateralOf (rotate_left s p cs ns fresh) wx wz ≤ 0 →
      noise_point (rotate_left s p cs ns fresh) wx wz ns = noise_point s wx wz ns
      ∧ terrain_height sqrtFn noiseFn wx wz (rotate_left s p cs ns fresh) amp ns cs none
          = terrain_height sqrtFn noiseFn wx wz s amp ns cs none) := by
  constructor
  · intro h1 h2
    have hnp := rotate_right_survivor s p cs ns fresh wx wz h1 h2
    exact ⟨hnp, by simp [terrain_height, hnp]⟩
  · intro h1 h2
    have hnp := rotate_left_survivor s p cs ns fresh wx wz h1 h2
    exact ⟨hnp, by simp [terrain_height, hnp]⟩

/-- C1 witness: a concrete surviving-quadrant point, (1, -1), where the
rotated and unrotated samplers agree. -/
theorem c1_witness :
    noise_point (rotate_right defaultSampler ⟨0, 0⟩ 1 1 ⟨0, 1, 0⟩) 1 (-1) 1
      = noise_point defaultSampler 1 (-1) 1 := by
  exact ((c1_rotation_continuity defaultSampler ⟨0, 0⟩ 1 1 (by norm_num)
    ⟨0, 1, 0⟩ 1 (-1) (fun q => q) (fun v => v.x) 1).1
    (by with_unfolding_all decide) (by with_unfolding_all decide)).1

/-- C2: on the seam (lateral = 0) the two branches of `noise_point` yield
the same value, namely `noise_origin + along * noise_scale * center_axis`,
and `noise_point` itself equals that value, for every sampler state, scale
and seam point. -/
theorem c2_seam_continuity (s : NoiseSampler) (wx wz ns : ℚ)
    (h : lateralOf s wx wz = 0) :
    left_branch_point s wx wz ns = right_branch_point s wx wz ns
    ∧ left_branch_point s wx wz ns
        = s.noise_origin + (alongOf s wx wz * ns) * s.center_axis
    ∧ noise_point s wx wz ns = left_branch_point s wx wz ns := by
  refine ⟨branch_eq_at_zero s wx wz ns h, ?_, ?_⟩
  · ext <;> simp [left_branch_point, h]
  · rw [noise_point_branches, if_pos h.ge]

/-- C2 witness: the seam point (0, 5) of the default sampler. -/
theorem c2_witness :
    left_branch_point defaultSampler 0 5 2
      = right_branch_point defaultSampler 0 5 2 := by
  exact (c2_seam_continuity defaultSampler 0 5 2 (by with_unfolding_all decide)).1

/-- C3: for every sampler state, observer position, chunk_size > 0,
noise_scale and world point, `noise_point` — and hence `terrain_height`
with no stale region — is identical before and after `slide_origin`:
origin motion is invisible in world height values. -/
theorem c3_slide_origin_invariance (s : NoiseSampler) (p : V2) (cs ns : ℚ)
    (_hcs : 0 < cs) (wx wz : ℚ) (sqrtFn : ℚ → ℚ) (noiseFn : V3 → ℚ)
    (amp : ℚ) :
    noise_point (slide_origin s p cs ns) wx wz ns = noise_point s wx wz ns
    ∧ terrain_height sqrtFn noiseFn wx wz (slide_origin s p cs ns) amp ns cs none
        = terrain_height sqrtFn noiseFn wx wz s amp ns cs none := by
  refine ⟨slide_noise_point s p cs ns wx wz, ?_⟩
  simp [terrain_height, slide_noise_point]

/-- C3 witness: a concrete slide of the default sampler leaves the height
field at (5, -4) unchanged. -/
theorem c3_witness :
    noise_point (slide_origin defaultSampler ⟨3, 7⟩ 2 1) 5 (-4) 1
      = noise_point defaultSampler 5 (-4) 1 := by
  exact (c3_slide_origin_invariance defaultSampler ⟨3, 7⟩ 2 1 (by norm_num)
    5 (-4) (fun q => q) (fun v => v.y) 3).1

/-- A vertex whose `shared_height` lookup succeeds takes the stale chunk's
recorded value verbatim. -/
theorem vertexHeight_of_shared (sqrtFn : ℚ → ℚ) (noiseFn : V3 → ℚ)
    (bx bz : ℤ) (size step : ℚ) (res : ℕ) (amp ns : ℚ)
    (samplerB : NoiseSampler) (st : StaleRegion) (xi zi : ℕ) (h : ℚ)
    (hsh : shared_height st.edge_heights bx bz xi zi st.grid_pos.1
      st.grid_pos.2 res = some h) :
    vertexHeight sqrtFn noiseFn bx bz size step res amp ns samplerB
      (some st) xi zi = h := by
  simp [vertexHeight, hsh]

/-- A vertex whose `shared_height` lookup fails is resampled through
`terrain_height`. -/
theorem vertexHeight_of_not_shared (sqrtFn : ℚ → ℚ) (noiseFn : V3 → ℚ)
    (bx bz : ℤ) (size step : ℚ) (res : ℕ) (amp ns : ℚ)
    (samplerB : NoiseSampler) (st : StaleRegion) (xi zi : ℕ)
    (hsh : shared_height st.edge_heights bx bz xi zi st.grid_pos.1
      st.grid_pos.2 res = none) :
    vertexHeight sqrtFn noiseFn bx bz size step res amp ns samplerB
      (some st) xi zi
      = terrain_height sqrtFn noiseFn (worldX bx size step xi)
          (worldX bz size step zi) samplerB amp ns size (some st) := by
  simp [vertexHeight, hsh]

/-- Evaluation of `shared_height` one chunk east of the stale chunk. -/
theorem shared_height_case_east (e : ChunkEdgeHeights) (sx sz : ℤ)
    (zi res : ℕ) :
    shared_height e (sx + 1) sz 0 zi sx sz res = arrGet e.east zi := by
  simp only [shared_height]
  have h1 : sx + 1 - sx = (1 : ℤ) := by ring
  have h2 : sz - sz = (0 : ℤ) := by ring
  rw [h1, h2]
  simp

/-- Evaluation of `shared_height` one chunk west of the stale chunk. -/
theorem shared_height_case_west (e : ChunkEdgeHeights) (sx sz : ℤ)
    (zi res : ℕ) :
    shared_height e (sx - 1) sz (res - 1) zi sx sz res = arrGet e.west zi := by
  simp only [shared_height]
  have h1 : sx - 1 - sx = (-1 : ℤ) := by ring
  have h2 : sz - sz = (0 : ℤ) := by ring
  rw [h1, h2]
  simp

/-- Evaluation of `shared_height` one chunk south of the stale chunk. -/
theorem shared_height_case_south (e : ChunkEdgeHeights) (sx sz : ℤ)
    (xi res : ℕ) :
    shared_height e sx (sz + 1) xi 0 sx sz res = arrGet e.south xi := by
  simp only [shared_height]
  have h1 : sx - sx = (0 : ℤ) := by ring
  have h2 : sz + 1 - sz = (1 : ℤ) := by ring
  rw [h1, h2]
  simp

/-- Evaluation of `shared_height` one chunk north of the stale chunk. -/
theorem shared_height_case_north (e : ChunkEdgeHeights) (sx sz : ℤ)
    (xi res : ℕ) :
    shared_height e sx (sz - 1) xi (res - 1) sx sz res = arrGet e.north xi := by
  simp only [shared_height]
  have h1 : sx - sx = (0 : ℤ) := by ring
  have h2 : sz - 1 - sz = (-1 : ℤ) := by ring
  rw [h1, h2]
  simp

/-- Evaluation of `shared_height` at the south-east diagonal neighbour. -/
theorem shared_height_case_se (e : ChunkEdgeHeights) (sx sz : ℤ) (res : ℕ) :
    shared_height e (sx + 1) (sz + 1) 0 0 sx sz res
      = arrGet e.south (res - 1) := by
  simp only [shared_height]
  have h1 : sx + 1 - sx = (1 : ℤ) := by ring
  have h2 : sz + 1 - sz = (1 : ℤ) := by ring
  rw [h1, h2]
  simp

/-- Evaluation of `shared_height` at the south-west diagonal neighbour. -/
theorem shared_height_case_sw (e : ChunkEdgeHeights) (sx sz : ℤ) (res : ℕ) :
    shared_height e (sx - 1) (sz + 1) (res - 1) 0 sx sz res
      = arrGet e.south 0 := by
  simp only [shared_height]
  have h1 : sx - 1 - sx = (-1 : ℤ) := by ring
  have h2 : sz + 1 - sz = (1 : ℤ) := by ring
  rw [h1, h2]
  simp

/-- Evaluation of `shared_height` at the north-east diagonal neighbour. -/
theorem shared_height_case_ne (e : ChunkEdgeHeights) (sx sz : ℤ) (res : ℕ) :
    shared_height e (sx + 1) (sz - 1) 0 (res - 1) sx sz res
      = arrGet e.north (res - 1) := by
  simp only [shared_height]
  have h1 : sx + 1 - sx = (1 : ℤ) := by ring
  have h2 : sz - 1 - sz = (-1 : ℤ) := by ring
  rw [h1, h2]
  simp

/-- Evaluation of `shared_height` at the north-west diagonal neighbour. -/
theorem shared_height_case_nw (e : ChunkEdgeHeights) (sx sz : ℤ) (res : ℕ) :
    shared_height e (sx - 1) (sz - 1) (res - 1) (res - 1) sx sz res
      = arrGet e.north 0 := by
  simp only [shared_height]
  have h1 : sx - 1 - sx = (-1 : ℤ) := by ring
  have h2 : sz - 1 - sz = (-1 : ℤ) := by ring
  rw [h1, h2]
  simp

/-- For resolutions up to 5 the edge-extraction loops of
`generate_chunk_mesh` succeed and record exactly the boundary rows and
columns of the vertex grid (entries beyond `res` keep their 0.0 init). -/
theorem extractEdges_eq (res : ℕ) (h2 : 2 ≤ res) (h5 : res ≤ 5)
    (H : ℕ → ℕ → ℚ) :
    extractEdges res (gridList H res) = some (recordedEdges H res) := by
  interval_cases res <;>
  · rw [← Option.some_get (show (extractEdges _ (gridList H _)).isSome by
      with_unfolding_all rfl)]
    congr 1
    refine ChunkEdgeHeights.ext ?_ ?_ ?_ ?_ <;>
      · funext i
        fin_cases i <;> with_unfolding_all rfl

/-- A monadic fold over `Option` fails when some list element makes the
step function fail, whatever the accumulated state. -/
theorem foldlM_none_of_mem {α β : Type} (f : β → α → Option β) (l : List α)
    (x : α) (hx : x ∈ l) (hf : ∀ b, f b x = none) :
    ∀ b, l.foldlM f b = none := by
  induction l with
  | nil => cases hx
  | cons a t ih =>
    intro b
    rw [List.foldlM_cons]
    rcases List.mem_cons.mp hx with rfl | hmem
    · rw [hf b]
      rfl
    · cases hfa : f b a with
      | none => rfl
      | some b' =>
        simp only [hfa, Option.bind_eq_bind, Option.some_bind]
        exact ih hmem b'

/-- For resolutions above 5 the edge extraction hits the out-of-bounds
write at index 5 of a `[f32; 5]` array and fails (a panic in the source). -/
theorem extractEdges_none_of_big (res : ℕ) (h : 5 < res) (positions : List ℚ) :
    extractEdges res positions = none := by
  simp only [extractEdges]
  have h5 : (5 : ℕ) ∈ List.range res := List.mem_range.mpr h
  rw [foldlM_none_of_mem _ _ 5 h5 ?hf]
  · rfl
  case hf =>
    intro e
    cases hp : positions[5]? with
    | none => simp [hp]
    | some v => simp [hp, arrSet]

theorem arrGet_recorded_north (H : ℕ → ℕ → ℚ) (res i : ℕ) (hi : i < res)
    (h5 : res ≤ 5) : arrGet (recordedEdges H res).north i = some (H i 0) := by
  rw [arrGet, dif_pos (show i < 5 by omega)]
  simp [recordedEdges, hi]

theorem arrGet_recorded_south (H : ℕ → ℕ → ℚ) (res i : ℕ) (hi : i < res)
    (h5 : res ≤ 5) :
    arrGet (recordedEdges H res).south i = some (H i (res - 1)) := by
  rw [arrGet, dif_pos (show i < 5 by omega)]
  simp [recordedEdges, hi]

theorem arrGet_recorded_west (H : ℕ → ℕ → ℚ) (res i : ℕ) (hi : i < res)
    (h5 : res ≤ 5) : arrGet (recordedEdges H res).west i = some (H 0 i) := by
  rw [arrGet, dif_pos (show i < 5 by omega)]
  simp [recordedEdges, hi]

theorem arrGet_recorded_east (H : ℕ → ℕ → ℚ) (res i : ℕ) (hi : i < res)
    (h5 : res ≤ 5) :
    arrGet (recordedEdges H res).east i = some (H (res - 1) i) := by
  rw [arrGet, dif_pos (show i < 5 by omega)]
  simp [recordedEdges, hi]

/-- Vertex column 0 of the next chunk sits at the same world x as vertex
column res-1 of the previous chunk (step is size/(res-1)). -/
theorem worldX_succ_zero (c : ℤ) (size : ℚ) (res : ℕ) (h2 : 2 ≤ res) :
    worldX (c + 1) size (size / ((res - 1 : ℕ) : ℚ)) 0
      = worldX c size (size / ((res - 1 : ℕ) : ℚ)) (res - 1) := by
  have hnz : ((res - 1 : ℕ) : ℚ) ≠ 0 := Nat.cast_ne_zero.mpr (by omega)
  have key : ((res - 1 : ℕ) : ℚ) * (size / ((res - 1 : ℕ) : ℚ)) = size := by
    rw [mul_comm, div_mul_cancel₀ size hnz]
  simp only [worldX, Nat.cast_zero, zero_mul, add_zero, key]
  push_cast
  ring

/-- Vertex column res-1 of the previous chunk sits at the same world x as
vertex column 0 of the next chunk. -/
theorem worldX_pred_last (c : ℤ) (size : ℚ) (res : ℕ) (h2 : 2 ≤ res) :
    worldX (c - 1) size (size / ((res - 1 : ℕ) : ℚ)) (res - 1)
      = worldX c size (size / ((res - 1 : ℕ) : ℚ)) 0 := by
  have hnz : ((res - 1 : ℕ) : ℚ) ≠ 0 := Nat.cast_ne_zero.mpr (by omega)
  have key : ((res - 1 : ℕ) : ℚ) * (size / ((res - 1 : ℕ) : ℚ)) = size := by
    rw [mul_comm, div_mul_cancel₀ size hnz]
  simp only [worldX, Nat.cast_zero, zero_mul, add_zero, key]
  push_cast
  ring

/-- C4: when `generate_chunk_mesh` runs with an active stale region, every
vertex of the new chunk on a boundary shared with the stale chunk — the 8
adjacency cases (4 edges, 4 corners) — receives its height verbatim from
the stale chunk's recorded `ChunkEdgeHeights`, so generating two adjacent
chunks (one recorded as the stale neighbour of the other) yields identical
heights at every shared-boundary vertex, whose world coordinates coincide
exactly; every vertex with no shared boundary uses `terrain_height`.
Chunk A at (ax, az) is generated first (`hgen`); its recorded edges form
the stale region used by each neighbour B. -/
theorem c4_stale_edge_exact_match (sqrtFn : ℚ → ℚ) (noiseFn : V3 → ℚ)
    (res : ℕ) (h2 : 2 ≤ res) (h5 : res ≤ 5) (size amp ns : ℚ) (ax az : ℤ)
    (samplerA samplerB : NoiseSampler) (staleA : Option StaleRegion)
    (posA : List ℚ) (eA : ChunkEdgeHeights)
    (hgen : generateChunkHeights sqrtFn noiseFn ax az size res amp ns
      samplerA staleA = some (posA, eA)) :
    (∀ zi, zi < res →
      vertexHeight sqrtFn noiseFn (ax + 1) az size (chunkStep size res) res amp ns
          samplerB (some ⟨samplerA, (ax, az), eA⟩) 0 zi
        = vertexHeight sqrtFn noiseFn ax az size (chunkStep size res) res amp ns
            samplerA staleA (res - 1) zi
      ∧ worldX (ax + 1) size (chunkStep size res) 0
          = worldX ax size (chunkStep size res) (res - 1))
    ∧ (∀ zi, zi < res →
      vertexHeight sqrtFn noiseFn (ax - 1) az size (chunkStep size res) res amp ns
          samplerB (some ⟨samplerA, (ax, az), eA⟩) (res - 1) zi
        = vertexHeight sqrtFn noiseFn ax az size (chunkStep size res) res amp ns
            samplerA staleA 0 zi
      ∧ worldX (ax - 1) size (chunkStep size res) (res - 1)
          = worldX ax size (chunkStep size res) 0)
    ∧ (∀ xi, xi < res →
      vertexHeight sqrtFn noiseFn ax (az + 1) size (chunkStep size res) res amp ns
          samplerB (some ⟨samplerA, (ax, az), eA⟩) xi 0
        = vertexHeight sqrtFn noiseFn ax az size (chunkStep size res) res amp ns
            samplerA staleA xi (res - 1)
      ∧ worldX (az + 1) size (chunkStep size res) 0
          = worldX az size (chunkStep size res) (res - 1))
    ∧ (∀ xi, xi < res →
      vertexHeight sqrtFn noiseFn ax (az - 1) size (chunkStep size res) res amp ns
          samplerB (some ⟨samplerA, (ax, az), eA⟩) xi (res - 1)
        = vertexHeight sqrtFn noiseFn ax az size (chunkStep size res) res amp ns
            samplerA staleA xi 0
      ∧ worldX (az - 1) size (chunkStep size res) (res - 1)
          = worldX az size (chunkStep size res) 0)
    ∧ (vertexHeight sqrtFn noiseFn (ax + 1) (az + 1) size (chunkStep size res) res
          amp ns samplerB (some ⟨samplerA, (ax, az), eA⟩) 0 0
        = vertexHeight sqrtFn noiseFn ax az size (chunkStep size res) res amp ns
            samplerA staleA (res - 1) (res - 1))
    ∧ (vertexHeight sqrtFn noiseFn (ax - 1) (az + 1) size (chunkStep size res) res
          amp ns samplerB (some ⟨samplerA, (ax, az), eA⟩) (res - 1) 0
        = vertexHeight sqrtFn noiseFn ax az size (chunkStep size res) res amp ns
            samplerA staleA 0 (res - 1))
    ∧ (vertexHeight sqrtFn noiseFn (ax + 1) (az - 1) size (chunkStep size res) res
          amp ns samplerB (some ⟨samplerA, (ax, az), eA⟩) 0 (res - 1)
        = vertexHeight sqrtFn noiseFn ax az size (chunkStep size res) res amp ns
            samplerA staleA (res - 1) 0)
    ∧ (vertexHeight sqrtFn noiseFn (ax - 1) (az - 1) size (chunkStep size res) res
          amp ns samplerB (some ⟨samplerA, (ax, az), eA⟩) (res - 1) (res - 1)
        = vertexHeight sqrtFn noiseFn ax az size (chunkStep size res) res amp ns
            samplerA staleA 0 0)
    ∧ (∀ (bx bz : ℤ) (xi zi : ℕ),
        shared_height eA bx bz xi zi ax az res = none →
        vertexHeight sqrtFn noiseFn bx bz size (chunkStep size res) res amp ns
            samplerB (some ⟨samplerA, (ax, az), eA⟩) xi zi
          = terrain_height sqrtFn noiseFn (worldX bx size (chunkStep size res) xi)
              (worldX bz size (chunkStep size res) zi) samplerB amp ns size
              (some ⟨samplerA, (ax, az), eA⟩)) := by
  have hnz : ((res - 1 : ℕ) : ℚ) ≠ 0 := Nat.cast_ne_zero.mpr (by omega)
  simp only [generateChunkHeights, qdivOpt, if_neg hnz, heightsList,
    extractEdges_eq res h2 h5, Option.bind_eq_bind, Option.some_bind,
    Option.pure_def, Option.some.injEq, Prod.mk.injEq] at hgen
  obtain ⟨hpos, heA⟩ := hgen
  subst heA
  simp only [chunkStep]
  refine ⟨?_, ?_, ?_, ?_, ?_, ?_, ?_, ?_, ?_⟩
  · intro zi hzi
    refine ⟨?_, worldX_succ_zero ax size res h2⟩
    apply vertexHeight_of_shared
    rw [shared_height_case_east]
    exact arrGet_recorded_east _ res zi hzi h5
  · intro zi hzi
    refine ⟨?_, worldX_pred_last ax size res h2⟩
    apply vertexHeight_of_shared
    rw [shared_height_case_west]
    exact arrGet_recorded_west _ res zi hzi h5
  · intro xi hxi
    refine ⟨?_, worldX_succ_zero az size res h2⟩
    apply vertexHeight_of_shared
    rw [shared_height_case_south]
    exact arrGet_recorded_south _ res xi hxi h5
  · intro xi hxi
    refine ⟨?_, worldX_pred_last az size res h2⟩
    apply vertexHeight_of_shared
    rw [shared_height_case_north]
    exact arrGet_recorded_north _ res xi hxi h5
  · apply vertexHeight_of_shared
    rw [shared_height_case_se]
    exact arrGet_recorded_south _ res (res - 1) (by omega) h5
  · apply vertexHeight_of_shared
    rw [shared_height_case_sw]
    exact arrGet_recorded_south _ res 0 (by omega) h5
  · apply vertexHeight_of_shared
    rw [shared_height_case_ne]
    exact arrGet_recorded_north _ res (res - 1) (by omega) h5
  · apply vertexHeight_of_shared
    rw [shared_height_case_nw]
    exact arrGet_recorded_north _ res 0 (by omega) h5
  · intro bx bz xi zi hnone
    exact vertexHeight_of_not_shared _ _ _ _ _ _ _ _ _ _ _ _ _ hnone

/-- C4 witness: at resolution 2 the north-west corner vertex of the
south-east neighbour of a generated chunk equals that chunk's south-east
corner vertex. -/
theorem c4_witness :
    vertexHeight (fun _ => 0) (fun _ => 0) 1 1 1 (chunkStep 1 2) 2 0 0
        defaultSampler (some ⟨defaultSampler, (0, 0),
          recordedEdges (fun xi zi => vertexHeight (fun _ => 0) (fun _ => 0)
            0 0 1 (1 / ((2 - 1 : ℕ) : ℚ)) 2 0 0 defaultSampler none xi zi) 2⟩) 0 0
      = vertexHeight (fun _ => 0) (fun _ => 0) 0 0 1 (chunkStep 1 2) 2 0 0
          defaultSampler none (2 - 1) (2 - 1) := by
  have h := c4_stale_edge_exact_match (fun _ => 0) (fun _ => 0) 2 (by norm_num)
    (by norm_num) 1 0 0 0 0 defaultSampler defaultSampler none
    (heightsList (fun _ => 0) (fun _ => 0) 0 0 1 (1 / ((2 - 1 : ℕ) : ℚ)) 2 0 0
      defaultSampler none)
    (recordedEdges (fun xi zi => vertexHeight (fun _ => 0) (fun _ => 0)
      0 0 1 (1 / ((2 - 1 : ℕ) : ℚ)) 2 0 0 defaultSampler none xi zi) 2)
    (by simp [generateChunkHeights, qdivOpt, heightsList,
      extractEdges_eq 2 (by norm_num) (by norm_num)])
  exact h.2.2.2.2.1

/-- C10: the height generation of `generate_chunk_mesh` is panic-free and
non-degenerate exactly when 2 ≤ chunk_resolution ≤ 5: for resolution > 5
the edge-extraction loops index past the end of the `[f32; 5]` arrays,
and for resolution < 2 the `res - 1` step computation is degenerate
(usize underflow at 0, zero divisor at 1); the resolution config is not
free. -/
theorem c10_resolution_precondition (sqrtFn : ℚ → ℚ) (noiseFn : V3 → ℚ)
    (cx cz : ℤ) (size : ℚ) (res : ℕ) (amp ns : ℚ) (sampler : NoiseSampler)
    (stale : Option StaleRegion) :
    (generateChunkHeights sqrtFn noiseFn cx cz size res amp ns sampler stale).isSome
      ↔ (2 ≤ res ∧ res ≤ 5) := by
  constructor
  · intro hs
    by_contra hc
    rcases Nat.lt_or_ge res 2 with hlt | hge
    · have hz : ((res - 1 : ℕ) : ℚ) = 0 := by interval_cases res <;> simp
      simp [generateChunkHeights, qdivOpt, hz] at hs
    · rcases Nat.lt_or_ge res 6 with h6 | h6
      · exact hc ⟨hge, by omega⟩
      · have hnz : ((res - 1 : ℕ) : ℚ) ≠ 0 := Nat.cast_ne_zero.mpr (by omega)
        simp [generateChunkHeights, qdivOpt, hnz,
          extractEdges_none_of_big res (by omega)] at hs
  · rintro ⟨h2, h5⟩
    have hnz : ((res - 1 : ℕ) : ℚ) ≠ 0 := Nat.cast_ne_zero.mpr (by omega)
    simp [generateChunkHeights, qdivOpt, hnz, heightsList,
      extractEdges_eq res h2 h5]

/-- The cubic t*t*(3-2t) is non-decreasing on [0, 1]. -/
theorem cubic_mono {u v : ℝ} (hu : 0 ≤ u) (huv : u ≤ v) (hv : v ≤ 1) :
    u * u * (3 - 2 * u) ≤ v * v * (3 - 2 * v) := by
  have hv' : 0 ≤ v := le_trans hu huv
  have huv1 : u ≤ 1 := le_trans huv hv
  have hS : 0 ≤ 3 * u + 3 * v - 2 * u * u - 2 * u * v - 2 * v * v := by
    nlinarith [mul_nonneg hu (sub_nonneg.mpr hv), mul_nonneg hv' (sub_nonneg.mpr huv1),
      mul_nonneg hu (sub_nonneg.mpr huv1), mul_nonneg hv' (sub_nonneg.mpr hv)]
  nlinarith [mul_nonneg (sub_nonneg.mpr huv) hS]

/-- Smoothstep over [0, e1] is non-decreasing. -/
theorem smoothstepR_mono {e1 x y : ℝ} (he : 0 < e1) (hxy : x ≤ y) :
    smoothstepR 0 e1 x ≤ smoothstepR 0 e1 y := by
  simp only [smoothstepR, sub_zero]
  have hdiv : x / e1 ≤ y / e1 := by gcongr
  have h1 : (0:ℝ) ≤ min (max (x / e1) 0) 1 := le_min (le_max_right _ 0) zero_le_one
  have h2 : min (max (x / e1) 0) 1 ≤ min (max (y / e1) 0) 1 :=
    min_le_min (max_le_max hdiv le_rfl) le_rfl
  have h3 : min (max (y / e1) 0) 1 ≤ 1 := min_le_right _ 1
  exact cubic_mono h1 h2 h3

/-- Smoothstep vanishes at the left edge. -/
theorem smoothstepR_zero (e1 : ℝ) : smoothstepR 0 e1 0 = 0 := by
  simp [smoothstepR]

/-- Smoothstep saturates at 1 beyond the right edge. -/
theorem smoothstepR_one {e1 x : ℝ} (he : 0 < e1) (hx : e1 ≤ x) :
    smoothstepR 0 e1 x = 1 := by
  simp only [smoothstepR, sub_zero]
  have h1 : (1:ℝ) ≤ x / e1 := (one_le_div he).mpr hx
  have : min (max (x / e1) 0) 1 = 1 :=
    min_eq_right (le_max_of_le_left h1)
  rw [this]
  ring

/-- The squared distance to the stale footprint is non-negative. -/
theorem footprintDistSq_nonneg (wx wz : ℚ) (stale : StaleRegion) (cs : ℚ) :
    0 ≤ footprintDistSq wx wz stale cs := by
  simp only [footprintDistSq]
  exact add_nonneg (mul_self_nonneg _) (mul_self_nonneg _)

/-- C5: for every stale region and chunk_size > 0, `blend_factor` (over
exact real arithmetic) is exactly 0 for every point inside the stale
chunk's axis-aligned footprint, exactly 1 for every point whose squared
Euclidean distance to the footprint is at least chunk_size squared (i.e.
distance ≥ chunk_size), and non-decreasing in the distance to the
footprint (cubic smoothstep over [0, chunk_size]). -/
theorem c5_blend_factor_bounds (stale : StaleRegion) (cs : ℚ) (hcs : 0 < cs) :
    (∀ wx wz : ℚ,
      (stale.grid_pos.1 : ℚ) * cs ≤ wx ∧ wx ≤ (stale.grid_pos.1 : ℚ) * cs + cs ∧
      (stale.grid_pos.2 : ℚ) * cs ≤ wz ∧ wz ≤ (stale.grid_pos.2 : ℚ) * cs + cs →
      blend_factor wx wz stale cs = 0)
    ∧ (∀ wx wz : ℚ, cs * cs ≤ footprintDistSq wx wz stale cs →
        blend_factor wx wz stale cs = 1)
    ∧ (∀ wx1 wz1 wx2 wz2 : ℚ,
        footprintDistSq wx1 wz1 stale cs ≤ footprintDistSq wx2 wz2 stale cs →
        blend_factor wx1 wz1 stale cs ≤ blend_factor wx2 wz2 stale cs) := by
  have hcsR : (0:ℝ) < (cs : ℝ) := by exact_mod_cast hcs
  refine ⟨?_, ?_, ?_⟩
  · rintro wx wz ⟨h1, h2, h3, h4⟩
    have hd : footprintDistSq wx wz stale cs = 0 := by
      simp only [footprintDistSq]
      rw [max_eq_left (max_le (by linarith) (by linarith)),
        max_eq_left (max_le (by linarith) (by linarith))]
      ring
    simp [blend_factor, hd, smoothstepR_zero]
  · intro wx wz hfar
    have hd0 : (0:ℝ) ≤ ((footprintDistSq wx wz stale cs : ℚ) : ℝ) := by
      exact_mod_cast footprintDistSq_nonneg wx wz stale cs
    have hsq : ((cs : ℝ)) ^ 2 ≤ ((footprintDistSq wx wz stale cs : ℚ) : ℝ) := by
      have : ((cs * cs : ℚ) : ℝ) ≤ ((footprintDistSq wx wz stale cs : ℚ) : ℝ) := by
        exact_mod_cast hfar
      push_cast at this ⊢
      nlinarith [this]
    have hle : (cs : ℝ) ≤ Real.sqrt ((footprintDistSq wx wz stale cs : ℚ) : ℝ) :=
      (Real.le_sqrt hcsR.le hd0).mpr hsq
    exact smoothstepR_one hcsR hle
  · intro wx1 wz1 wx2 wz2 hmono
    refine smoothstepR_mono hcsR (Real.sqrt_le_sqrt ?_)
    exact_mod_cast hmono

/-- C5 witness: for a unit-size stale chunk at the origin, the blend factor
is 0 at an interior point, 1 at distance 2, and ordered between them. -/
theorem c5_witness :
    blend_factor (1/2) (1/2) ⟨defaultSampler, (0, 0),
        ⟨fun _ => 0, fun _ => 0, fun _ => 0, fun _ => 0⟩⟩ 1 = 0
    ∧ blend_factor 3 0 ⟨defaultSampler, (0, 0),
        ⟨fun _ => 0, fun _ => 0, fun _ => 0, fun _ => 0⟩⟩ 1 = 1
    ∧ blend_factor (1/2) (1/2) ⟨defaultSampler, (0, 0),
          ⟨fun _ => 0, fun _ => 0, fun _ => 0, fun _ => 0⟩⟩ 1
        ≤ blend_factor 3 0 ⟨defaultSampler, (0, 0),
          ⟨fun _ => 0, fun _ => 0, fun _ => 0, fun _ => 0⟩⟩ 1 := by
  have h := c5_blend_factor_bounds ⟨defaultSampler, (0, 0),
    ⟨fun _ => 0, fun _ => 0, fun _ => 0, fun _ => 0⟩⟩ 1 (by norm_num)
  refine ⟨h.1 (1/2) (1/2) ?_, h.2.1 3 0 ?_, h.2.2 (1/2) (1/2) 3 0 ?_⟩
  · norm_num
  · with_unfolding_all decide
  · with_unfolding_all decide

/-- Cells inserted by the spawn loop lie within `radius` of the player
cell (squared grid distance); everything else in the result was already
present. -/
theorem spawnLoop_mem (cs : ℚ) (r : ℤ) (t : TickInput) (l : List (ℤ × ℤ)) :
    ∀ (s : Finset (ℤ × ℤ)) (n : ℕ) (c : ℤ × ℤ),
      c ∈ (spawnLoop cs r t l s n).1 →
      c ∈ s ∨ gridDistSq c (playerCellX cs t, playerCellZ cs t) ≤ r * r := by
  induction l with
  | nil => exact fun s n c h => Or.inl h
  | cons a l ih =>
    intro s n c h
    rw [spawnLoop] at h
    split at h
    · exact Or.inl h
    · split at h
      · exact ih s n c h
      · split at h
        · exact ih s n c h
        · split at h
          · exact ih s n c h
          · next hdist _ =>
            rcases ih _ _ c h with hs | hd
            · rcases Finset.mem_insert.mp hs with rfl | hs
              · exact Or.inr (not_lt.mp hdist)
              · exact Or.inl hs
            · exact Or.inr hd

/-- The spawn loop never counts past the per-frame cap. -/
theorem spawnLoop_count (cs : ℚ) (r : ℤ) (t : TickInput) (l : List (ℤ × ℤ)) :
    ∀ (s : Finset (ℤ × ℤ)) (n : ℕ), n ≤ MAX_SPAWNS_PER_FRAME →
      (spawnLoop cs r t l s n).2 ≤ MAX_SPAWNS_PER_FRAME := by
  induction l with
  | nil => exact fun s n h => h
  | cons a l ih =>
    intro s n hn
    rw [spawnLoop]
    split
    · exact hn
    · next hcap =>
      split
      · exact ih s n hn
      · split
        · exact ih s n hn
        · split
          · exact ih s n hn
          · exact ih _ _ (Nat.succ_le_of_lt (Nat.lt_of_not_le hcap))

/-- Chunks kept by the despawn loop are within radius + 2 of the player
cell. -/
theorem despawn_bound (cs : ℚ) (r : ℤ) (t : TickInput) (s : Finset (ℤ × ℤ))
    (c : ℤ × ℤ) (h : c ∈ despawnPhase cs r t s) :
    gridDistSq c (playerCellX cs t, playerCellZ cs t) ≤ (r + 2) * (r + 2) := by
  have hk := (Finset.mem_filter.mp h).2
  simp only [keepChunk, Bool.not_eq_eq_eq_not, Bool.not_true, Bool.or_eq_false_iff,
    decide_eq_false_iff_not, not_lt] at hk
  exact hk.1

/-- After a full `manage_chunks` tick, every spawned chunk is within
radius + 2 of the player cell. -/
theorem tick_mem_bound (cs : ℚ) (r : ℤ) (hr : 0 ≤ r) (t : TickInput)
    (s : Finset (ℤ × ℤ)) (c : ℤ × ℤ) (h : c ∈ (manageChunksTick cs r t s).1) :
    gridDistSq c (playerCellX cs t, playerCellZ cs t) ≤ (r + 2) * (r + 2) := by
  rcases spawnLoop_mem cs r t _ _ _ c h with hs | hd
  · exact despawn_bound cs r t s c hs
  · nlinarith

/-- Running a tick sequence and then one more tick is that tick applied to
the intermediate state. -/
theorem runTicks_concat (cs : ℚ) (r : ℤ) (ticks : List TickInput)
    (last : TickInput) (s0 : Finset (ℤ × ℤ)) :
    runTicks cs r (ticks ++ [last]) s0
      = (manageChunksTick cs r last (runTicks cs r ticks s0)).1 := by
  simp [runTicks, List.foldl_append]

/-- C6: for every non-negative radius, after any number of complete ticks
(each the despawn phase followed by the capped spawn phase) and from any
initial state, every spawned chunk's squared grid distance from the last
tick's observer cell is at most (radius + 2)^2, and no single tick ever
generates more than MAX_SPAWNS_PER_FRAME = 64 chunks. -/
theorem c6_streamer_bounds (cs : ℚ) (r : ℤ) (hr : 0 ≤ r) :
    (∀ (ticks : List TickInput) (last : TickInput) (s0 : Finset (ℤ × ℤ))
        (c : ℤ × ℤ), c ∈ runTicks cs r (ticks ++ [last]) s0 →
        gridDistSq c (playerCellX cs last, playerCellZ cs last) ≤ (r + 2) * (r + 2))
    ∧ ∀ (t : TickInput) (s : Finset (ℤ × ℤ)),
        (manageChunksTick cs r t s).2 ≤ MAX_SPAWNS_PER_FRAME := by
  constructor
  · intro ticks last s0 c h
    rw [runTicks_concat] at h
    exact tick_mem_bound cs r hr last _ c h
  · exact fun t s => spawnLoop_count cs r t _ _ 0 (Nat.zero_le _)

/-- C6 witness: a concrete tick at radius 0 spawns at most the cap. -/
theorem c6_witness :
    (manageChunksTick 1 0 ⟨0, 0, .North⟩ ∅).2 ≤ MAX_SPAWNS_PER_FRAME :=
  (c6_streamer_bounds 1 0 (by norm_num)).2 ⟨0, 0, .North⟩ ∅

set_option maxRecDepth 4000 in
/-- C7 counterexample: from the default state (observer at the origin
facing north, chunk_size = 8, radius = 16, nothing spawned), one
`manage_chunks` tick does not spawn cell (0, 0): the per-frame cap of 64
is exhausted by the most distant rows of the scan (cz from -16 up) before
the scan reaches row 0. -/
theorem c7_counterexample :
    ((0 : ℤ), (0 : ℤ)) ∉ (manageChunksTick 8 16 ⟨0, 0, .North⟩ ∅).1 := by
  with_unfolding_all decide

set_option maxRecDepth 4000 in
/-- C7 (amended): after exactly one tick from the default state the
spawned set contains cell (0, -16) — not (0, 0), which is deferred to a
later tick by the spawn cap — the tick spawns exactly
MAX_SPAWNS_PER_FRAME = 64 chunks, and no spawned cell has squared grid
distance above 18^2 from the observer's cell (0, 0). -/
theorem c7_first_tick_contents :
    ((0 : ℤ), (-16 : ℤ)) ∈ (manageChunksTick 8 16 ⟨0, 0, .North⟩ ∅).1
    ∧ (manageChunksTick 8 16 ⟨0, 0, .North⟩ ∅).2 = MAX_SPAWNS_PER_FRAME
    ∧ ∀ c ∈ (manageChunksTick 8 16 ⟨0, 0, .North⟩ ∅).1,
        gridDistSq c (0, 0) ≤ 18 * 18 := by
  with_unfolding_all decide

/-- C8 counterexample: rotating the default sampler right with the fresh
unit axis (0,1,0) — orthogonal to the axis the source passes to
`random_orthogonal_dir3` — carries over TWO of the old axes (old
center_axis becomes the new left_axis and old right_axis becomes the new
center_axis), not exactly one, and the new left_axis is not the old right
quadrant's across-axis (the old right_axis). -/
theorem c8_counterexample :
    (rotate_right defaultSampler ⟨0, 0⟩ 1 1 ⟨0, 1, 0⟩).left_axis
        ≠ defaultSampler.right_axis
    ∧ (rotate_right defaultSampler ⟨0, 0⟩ 1 1 ⟨0, 1, 0⟩).left_axis
        = defaultSampler.center_axis
    ∧ (rotate_right defaultSampler ⟨0, 0⟩ 1 1 ⟨0, 1, 0⟩).center_axis
        = defaultSampler.right_axis
    ∧ (⟨0, 1, 0⟩ : V3) ≠ defaultSampler.left_axis
    ∧ (⟨0, 1, 0⟩ : V3) ≠ defaultSampler.center_axis
    ∧ (⟨0, 1, 0⟩ : V3) ≠ defaultSampler.right_axis
    ∧ V3.dot ⟨0, 1, 0⟩ defaultSampler.right_axis = 0 := by
  with_unfolding_all decide

/-- C8 (amended): in each rotation exactly two of the old axes carry over
unchanged — the two that span the surviving quadrant's plane. For a right
turn the old center_axis becomes the new left_axis and the old right_axis
(the surviving quadrant's across-axis) becomes the new center_axis; for a
left turn the old left_axis becomes the new center_axis and the old
center_axis becomes the new right_axis. The freshly exposed quadrant's
axis is the random vector, which (by the contract of
`random_orthogonal_dir3` applied to the argument the source passes) is
orthogonal to the retained center axis of the new sampler. -/
theorem c8_axis_carryover (s : NoiseSampler) (p : V2) (cs ns : ℚ)
    (fresh : V3) (hl : V3.dot fresh s.left_axis = 0)
    (hr : V3.dot fresh s.right_axis = 0) :
    ((rotate_right s p cs ns fresh).left_axis = s.center_axis
      ∧ (rotate_right s p cs ns fresh).center_axis = s.right_axis
      ∧ (rotate_right s p cs ns fresh).right_axis = fresh
      ∧ V3.dot fresh (rotate_right s p cs ns fresh).center_axis = 0)
    ∧ ((rotate_left s p cs ns fresh).left_axis = fresh
      ∧ (rotate_left s p cs ns fresh).center_axis = s.left_axis
      ∧ (rotate_left s p cs ns fresh).right_axis = s.center_axis
      ∧ V3.dot fresh (rotate_left s p cs ns fresh).center_axis = 0) :=
  ⟨⟨rfl, rfl, rfl, hr⟩, ⟨rfl, rfl, rfl, hl⟩⟩

/-- C8 witness: the axis carry-over at a concrete rotation of the default
sampler. -/
theorem c8_witness :
    (rotate_right defaultSampler ⟨2, 3⟩ 4 1 ⟨0, 1, 0⟩).left_axis
        = defaultSampler.center_axis
    ∧ (rotate_left defaultSampler ⟨2, 3⟩ 4 1 ⟨0, 1, 0⟩).center_axis
        = defaultSampler.left_axis := by
  exact ⟨(c8_axis_carryover defaultSampler ⟨2, 3⟩ 4 1 ⟨0, 1, 0⟩
      (by with_unfolding_all decide) (by with_unfolding_all decide)).1.1,
    (c8_axis_carryover defaultSampler ⟨2, 3⟩ 4 1 ⟨0, 1, 0⟩
      (by with_unfolding_all decide) (by with_unfolding_all decide)).2.2.1⟩

/-- C9: the object scatterer is deterministic — two runs over the same
chunk grid position, config, noise, sampler, stale region, blue-noise
point set (and the same fixed sin and sqrt functions) produce identical
placement lists: the same points receive objects with the same category,
the same variant index within the category, and the same world position
and height. -/
theorem c9_scatter_determinism (sinFn sinFn2 sqrtFn sqrtFn2 : ℚ → ℚ)
    (noiseFn noiseFn2 : V3 → ℚ) (cx cx2 cz cz2 : ℤ)
    (size size2 amp amp2 ns ns2 : ℚ) (sampler sampler2 : NoiseSampler)
    (stale stale2 : Option StaleRegion) (points points2 : List (ℚ × ℚ))
    (h1 : sinFn = sinFn2) (h2 : sqrtFn = sqrtFn2) (h3 : noiseFn = noiseFn2)
    (h4 : cx = cx2) (h5 : cz = cz2) (h6 : size = size2) (h7 : amp = amp2)
    (h8 : ns = ns2) (h9 : sampler = sampler2) (h10 : stale = stale2)
    (h11 : points = points2) :
    spawn_chunk_objects sinFn sqrtFn noiseFn cx cz size amp ns sampler stale points
      = spawn_chunk_objects sinFn2 sqrtFn2 noiseFn2 cx2 cz2 size2 amp2 ns2
          sampler2 stale2 points2 := by
  subst h1 h2 h3 h4 h5 h6 h7 h8 h9 h10 h11
  rfl

/-- C9 witness: two identical scatter runs over one blue-noise point. -/
theorem c9_witness :
    spawn_chunk_objects (fun _ => 1) (fun q => q) (fun v => v.x) 0 0 8 8 1
        defaultSampler none [(0.5, 0.5)]
      = spawn_chunk_objects (fun _ => 1) (fun q => q) (fun v => v.x) 0 0 8 8 1
          defaultSampler none [(0.5, 0.5)] := by
  exact c9_scatter_determinism _ _ _ _ _ _ _ _ _ _ _ _ _ _ _ _ _ _ _ _ _ _
    rfl rfl rfl rfl rfl rfl rfl rfl rfl rfl rfl
